import Mathlib

/-!
# Verification of the pipeworks condition-axis generation engine

Shallow embedding of `src/pipeworks/core/character_conditions.py` and of the
condition dispatcher in `src/pipeworks/ui/handlers/conditions.py`.

Python's shared pseudo-random module (`random.seed`, `random.choice`,
`random.choices`, `random.randint`, `random.sample`, `random.random`) is
modelled as an abstract state machine `RandModel σ`: each primitive consumes a
state and returns a drawn value together with the successor state.  The
documented behaviour of the CPython primitives (results lie in the requested
ranges, `sample` returns distinct members, ...) is captured by the separate
`LawfulRand` predicate.  The weighted branch of `random.choices` is embedded
from the CPython implementation itself (cumulative sums, total-weight check,
one `random()` draw scaled by the total and located with `bisect_right`).
Floats are modelled by `PyFloat`, exact (unnormalised) fractions with integer
numerator and natural denominator: every float occurring in this repository
(integer and half-integer weights) is such a fraction, and float addition,
multiplication and comparison on them incur no rounding, so the embedding's
arithmetic coincides with CPython's.

Python dictionaries are embedded as association lists in insertion order:
assignment replaces in place or appends, `pop` deletes, iteration is list
order — exactly the observable behaviour of `dict` for the operations used.

Exceptions are modelled with `Except PyError`; `PyError.keyError` stands for
`KeyError`, `PyError.valueError` for `ValueError`, `PyError.indexError` for
`IndexError`.
-/

inductive PyError where
  | keyError : PyError
  | valueError : PyError
  | indexError : PyError
deriving DecidableEq, Repr

deriving instance DecidableEq for Except

/-- Exact fraction `num / den` (denominator kept positive by construction),
modelling the Python float values flowing through `random.choices`:
weights, cumulative sums and the scaled `random()` draw. -/
structure PyFloat where
  num : Int
  den : Nat
deriving DecidableEq, Repr

/-- The float of an integer literal. -/
def PyFloat.ofInt (n : Int) : PyFloat := ⟨n, 1⟩

/-- Float addition (exact, no normalisation). -/
def PyFloat.add (x y : PyFloat) : PyFloat := ⟨x.num * y.den + y.num * x.den, x.den * y.den⟩

/-- Float multiplication (exact, no normalisation). -/
def PyFloat.mul (x y : PyFloat) : PyFloat := ⟨x.num * y.num, x.den * y.den⟩

/-- Comparison `x <= y` on floats, by cross-multiplication (denominators positive). -/
abbrev PyFloat.le (x y : PyFloat) : Prop := x.num * y.den ≤ y.num * x.den

/-- Comparison `x < y` on floats, by cross-multiplication (denominators positive). -/
abbrev PyFloat.lt (x y : PyFloat) : Prop := x.num * y.den < y.num * x.den

/-- Association-list lookup: `d.get(k)` / `d[k]` membership test for a Python
dict embedded in insertion order (keys are unique in every dict we build). -/
def dictGet {α : Type} : List (String × α) → String → Option α
  | [], _ => none
  | (k', v) :: rest, k => if k' = k then some v else dictGet rest k

/-- Python dict assignment `d[k] = v`: replaces the value in place when the
key is present, otherwise appends the pair (insertion order semantics). -/
def dictInsert : List (String × String) → String → String → List (String × String)
  | [], k, v => [(k, v)]
  | (k', v') :: rest, k, v =>
    if k' = k then (k, v) :: rest else (k', v') :: dictInsert rest k v

/-- Python dict `d.pop(k)`: removes the entry with key `k`. -/
def dictPop : List (String × String) → String → List (String × String)
  | [], _ => []
  | (k', v') :: rest, k => if k' = k then rest else (k', v') :: dictPop rest k

/-- A Python dict mapping axis names to selected values, in insertion order. -/
abbrev Dict := List (String × String)

/-- Python `str.join`: `sep.join(l)`. -/
def pyJoin (sep : String) : List String → String
  | [] => ""
  | [x] => x
  | x :: xs => x ++ sep ++ pyJoin sep xs

/-- Abstract model of the shared `random` module: a state type `σ` together
with deterministic transition functions for each primitive the subsystem
draws from.  `seedFn` is `random.seed`, `random` is `random.random`,
`choice`, `randint` and `sample` are the homonymous library calls. -/
structure RandModel (σ : Type) where
  seedFn : Int → σ
  random : σ → PyFloat × σ
  choice : List String → σ → String × σ
  randint : Nat → Nat → σ → Nat × σ
  sample : List String → Nat → σ → List String × σ

/-- The documented behaviour of the CPython random primitives, as laws on a
`RandModel`: `choice` returns a member of a non-empty sequence, `randint`
stays below its upper bound, `sample` returns `k` distinct members. -/
structure LawfulRand {σ : Type} (M : RandModel σ) : Prop where
  choice_mem : ∀ l s, l ≠ [] → (M.choice l s).1 ∈ l
  randint_le : ∀ lo hi s, lo ≤ hi → (M.randint lo hi s).1 ≤ hi
  sample_length : ∀ l k s, k ≤ l.length → ((M.sample l k s).1).length = k
  sample_subset : ∀ l k s, ∀ x ∈ (M.sample l k s).1, x ∈ l
  sample_nodup : ∀ l k s, l.Nodup → ((M.sample l k s).1).Nodup

/-- Embeds `random.choice(options)`: `IndexError` on an empty sequence, otherwise a
draw from the model. -/
def pyChoice {σ : Type} (M : RandModel σ) (options : List String) (s : σ) :
    Except PyError (String × σ) :=
  if options.isEmpty then .error .indexError else .ok (M.choice options s)

/-- Embeds `random.randint(lo, hi)`: `ValueError` when the range is empty. -/
def pyRandint {σ : Type} (M : RandModel σ) (lo hi : Nat) (s : σ) :
    Except PyError (Nat × σ) :=
  if hi < lo then .error .valueError else .ok (M.randint lo hi s)

/-- Embeds `random.sample(population, k)`: `ValueError` when `k` exceeds the
population size. -/
def pySample {σ : Type} (M : RandModel σ) (l : List String) (k : Nat) (s : σ) :
    Except PyError (List String × σ) :=
  if l.length < k then .error .valueError else .ok (M.sample l k s)

/-- Embeds `itertools.accumulate` over floats starting from `acc`. -/
def accumFrom (acc : PyFloat) : List PyFloat → List PyFloat
  | [] => []
  | x :: xs => (acc.add x) :: accumFrom (acc.add x) xs

/-- Cumulative sums, as built by `random.choices` for its weighted branch. -/
def accum (l : List PyFloat) : List PyFloat := accumFrom (PyFloat.ofInt 0) l

/-- Embeds `bisect.bisect_right` on the cumulative weights, with explicit fuel to
keep the bisection loop structurally recursive; `bisectRight` supplies enough
fuel for the loop to run to completion. -/
def bisectAux (a : List PyFloat) (x : PyFloat) : Nat → Nat → Nat → Nat
  | 0, lo, _ => lo
  | fuel + 1, lo, hi =>
    if lo < hi then
      if x.lt (a.getD ((lo + hi) / 2) (PyFloat.ofInt 0)) then
        bisectAux a x fuel lo ((lo + hi) / 2)
      else bisectAux a x fuel ((lo + hi) / 2 + 1) hi
    else lo

/-- Embeds `bisect.bisect_right a x lo hi` (the loop halves the interval, so `hi - lo`
iterations of fuel always suffice). -/
def bisectRight (a : List PyFloat) (x : PyFloat) (lo hi : Nat) : Nat :=
  bisectAux a x (hi - lo) lo hi

/-- The weighted branch of CPython's `random.choices(population, weights, k=1)`:
builds the cumulative weights, indexes `cum_weights[-1]` (an `IndexError` on an
empty population), rejects a non-positive total with `ValueError`, then draws
one `random()` value, scales it by the total and locates it with
`bisect_right(cum_weights, x, 0, len(population) - 1)`. -/
def pyChoicesWeighted {σ : Type} (M : RandModel σ) (population : List String)
    (weights : List PyFloat) (s : σ) : Except PyError (String × σ) :=
  if population.length ≠ weights.length then .error .valueError
  else
    match (accum weights).getLast? with
    | none => .error .indexError
    | some total =>
      if total.le (PyFloat.ofInt 0) then .error .valueError
      else
        .ok (population.getD (bisectRight (accum weights) ((M.random s).1.mul total) 0
              (population.length - 1)) "", (M.random s).2)

/-- Embeds `weighted_choice(options, weights)` from `character_conditions.py`:
`if not weights:` (absent or empty dict) fall back to `random.choice`;
otherwise resolve `weights.get(option, 1.0)` per option in order and call
`random.choices(options, weights=weight_values, k=1)[0]`. -/
def weighted_choice {σ : Type} (M : RandModel σ) (options : List String)
    (weights : Option (List (String × PyFloat))) (s : σ) : Except PyError (String × σ) :=
  match weights with
  | none => pyChoice M options s
  | some w =>
    if w.isEmpty then pyChoice M options s
    else pyChoicesWeighted M options
      (options.map (fun o => (dictGet w o).getD (PyFloat.ofInt 1))) s

/-- A family configuration bundle: the axis registry, the policy (mandatory
list, optional list, `max_optional`), the weight table and the exclusion
rules — the module-level constants a condition family is instantiated with. -/
structure AxisConfig where
  axes : List (String × List String)
  mandatory : List String
  optional : List String
  maxOptional : Nat
  weights : List (String × List (String × PyFloat))
  exclusions : List ((String × String) × List (String × List String))

/-- The shared body of the mandatory and optional selection loops of
`generate_condition`: for each axis name, skip it (with a warning) when it is
not in the registry, otherwise draw `weighted_choice(CONDITION_AXES[axis],
WEIGHTS.get(axis))` and assign `chosen[axis]`. -/
def axisLoop {σ : Type} (M : RandModel σ) (cfg : AxisConfig) :
    List String → Dict → σ → Except PyError (Dict × σ)
  | [], chosen, s => .ok (chosen, s)
  | axis :: rest, chosen, s =>
    match dictGet cfg.axes axis with
    | none => axisLoop M cfg rest chosen s
    | some vals =>
      match weighted_choice M vals (dictGet cfg.weights axis) s with
      | .error e => .error e
      | .ok (v, s') => axisLoop M cfg rest (dictInsert chosen axis v) s'

/-- One step of the inner exclusion loop: for a blocked `(axis, values)` pair,
`if chosen.get(blocked_axis) in blocked_values: chosen.pop(blocked_axis)`. -/
def removeBlocked (m : Dict) (p : String × List String) : Dict :=
  match dictGet m p.1 with
  | some v => if v ∈ p.2 then dictPop m p.1 else m
  | none => m

/-- One exclusion rule: when `chosen.get(trigger_axis) == trigger_value`,
run the inner removal loop over the rule's blocked mapping. -/
def applyExclusion (m : Dict)
    (rule : (String × String) × List (String × List String)) : Dict :=
  if dictGet m rule.1.1 = some rule.1.2 then rule.2.foldl removeBlocked m else m

/-- Phase 3 of `generate_condition`: one linear pass over the exclusion rules
in declaration order, mutating the result immediately. -/
def exclusionPass (m : Dict)
    (rules : List ((String × String) × List (String × List String))) : Dict :=
  rules.foldl applyExclusion m

/-- The body of `generate_condition` after the seeding step, from the state
`s0` the draws start in: mandatory loop, `random.randint(0,
min(max_optional, len(optional)))`, `random.sample(optional, num_optional)`,
optional loop, exclusion pass. -/
def genFrom {σ : Type} (M : RandModel σ) (cfg : AxisConfig) (s0 : σ) :
    Except PyError (Dict × σ) :=
  match axisLoop M cfg cfg.mandatory [] s0 with
  | .error e => .error e
  | .ok (m1, s1) =>
    match pyRandint M 0 (min cfg.maxOptional cfg.optional.length) s1 with
    | .error e => .error e
    | .ok (num, s2) =>
      match pySample M cfg.optional num s2 with
      | .error e => .error e
      | .ok (optAxes, s3) =>
        match axisLoop M cfg optAxes m1 s3 with
        | .error e => .error e
        | .ok (m2, s4) => .ok (exclusionPass m2 cfg.exclusions, s4)

/-- Embeds `generate_condition(seed)`: `if seed is not None: random.seed(seed)`,
then the generation body; with no seed the draws continue from the ambient
random state `rng`. -/
def generate_condition {σ : Type} (M : RandModel σ) (cfg : AxisConfig)
    (seed : Option Int) (rng : σ) : Except PyError (Dict × σ) :=
  genFrom M cfg (match seed with | some i => M.seedFn i | none => rng)

/-- The constant `CONDITION_AXES` from `character_conditions.py`. -/
def CONDITION_AXES : List (String × List String) :=
  [("physique", ["skinny", "wiry", "stocky", "hunched", "frail", "broad"]),
   ("wealth", ["poor", "modest", "well-kept", "wealthy", "decadent"]),
   ("health", ["sickly", "scarred", "weary", "hale", "limping"]),
   ("demeanor", ["timid", "suspicious", "resentful", "alert", "proud"]),
   ("age", ["young", "middle-aged", "old", "ancient"])]

/-- The constant `AXIS_POLICY["mandatory"]`. -/
def AXIS_POLICY_mandatory : List String := ["physique", "wealth"]

/-- The constant `AXIS_POLICY["optional"]`. -/
def AXIS_POLICY_optional : List String := ["health", "demeanor", "age"]

/-- The constant `AXIS_POLICY["max_optional"]`. -/
def AXIS_POLICY_max_optional : Nat := 2

/-- The constant `WEIGHTS` (the floats `4.0 … 0.5`, as the equal exact fractions). -/
def WEIGHTS : List (String × List (String × PyFloat)) :=
  [("wealth",
    [("poor", ⟨4, 1⟩), ("modest", ⟨3, 1⟩), ("well-kept", ⟨2, 1⟩), ("wealthy", ⟨1, 1⟩),
     ("decadent", ⟨1, 2⟩)]),
   ("physique",
    [("skinny", ⟨3, 1⟩), ("wiry", ⟨2, 1⟩), ("hunched", ⟨2, 1⟩), ("frail", ⟨1, 1⟩),
     ("stocky", ⟨1, 1⟩), ("broad", ⟨1, 2⟩)])]

/-- The constant `EXCLUSIONS`, in declaration order. -/
def EXCLUSIONS : List ((String × String) × List (String × List String)) :=
  [(("wealth", "decadent"), [("physique", ["frail"]), ("health", ["sickly"])]),
   (("age", "ancient"), [("demeanor", ["timid"])]),
   (("physique", "broad"), [("health", ["sickly"])]),
   (("health", "hale"), [("physique", ["frail"])])]

/-- The character family bundle (the module-level constants of
`character_conditions.py`). -/
def charConfig : AxisConfig :=
  { axes := CONDITION_AXES
    mandatory := AXIS_POLICY_mandatory
    optional := AXIS_POLICY_optional
    maxOptional := AXIS_POLICY_max_optional
    weights := WEIGHTS
    exclusions := EXCLUSIONS }

/-- Embeds `condition_to_prompt`: empty dict renders as the empty string, otherwise
the dict's values joined with `", "` in iteration (insertion) order. -/
def condition_to_prompt (condition_dict : Dict) : String :=
  if condition_dict.isEmpty then "" else pyJoin ", " (condition_dict.map Prod.snd)

/-- Embeds `get_axis_values(axis)`: `CONDITION_AXES[axis]`, a `KeyError` when the
axis is not defined. -/
def get_axis_values (axis : String) : Except PyError (List String) :=
  match dictGet CONDITION_AXES axis with
  | some vs => .ok vs
  | none => .error .keyError

/-- Embeds `get_available_axes()`: the registry's key list. -/
def get_available_axes : List String := CONDITION_AXES.map Prod.fst

/-!
## The dispatcher (`src/pipeworks/ui/handlers/conditions.py`)

The handler imports the character, facial and occupation families from
`pipeworks.core.condition_axis`.  Of those, only the character family's module
is among the sources; the facial and occupation modules are referenced by the
package declaration and by this handler but their files are absent.
-/

/-- Embeds `_generate_character_condition(seed)`: `generate_condition(seed=seed)`
over the character family constants, rendered with `condition_to_prompt`. -/
def _generate_character_condition {σ : Type} (M : RandModel σ) (seed : Option Int)
    (rng : σ) : Except PyError (String × σ) :=
  match generate_condition M charConfig seed rng with
  | .error e => .error e
  | .ok (m, s') => .ok (condition_to_prompt m, s')

/-- Modelled from the spec: the `facial_conditions` module is missing from the
sources (only its package declaration and this caller are present).  Per the
spec, each family instantiates the same generic engine and renderer with its
own immutable configuration bundle ("three separate constant bundles
suffice"), so the facial family is the generic `generate_condition` +
`condition_to_prompt` pair applied to a facial configuration, taken here as
the parameter `cfgF`. -/
def _generate_facial_condition {σ : Type} (M : RandModel σ) (cfgF : AxisConfig)
    (seed : Option Int) (rng : σ) : Except PyError (String × σ) :=
  match generate_condition M cfgF seed rng with
  | .error e => .error e
  | .ok (m, s') => .ok (condition_to_prompt m, s')

/-- Modelled from the spec: the `occupation_conditions` module is missing from
the sources (only this caller is present).  As for the facial family, it is
the generic engine applied to an occupation configuration `cfgO`. -/
def _generate_occupation_condition {σ : Type} (M : RandModel σ) (cfgO : AxisConfig)
    (seed : Option Int) (rng : σ) : Except PyError (String × σ) :=
  match generate_condition M cfgO seed rng with
  | .error e => .error e
  | .ok (m, s') => .ok (condition_to_prompt m, s')

/-- Embeds `_generate_both_conditions(seed)`: character with `seed`, facial with
`seed + 1` when a seed is given (`None` otherwise), then the
`if character_text and facial_text` join chain. -/
def _generate_both_conditions {σ : Type} (M : RandModel σ) (cfgF : AxisConfig)
    (seed : Option Int) (rng : σ) : Except PyError (String × σ) :=
  match _generate_character_condition M seed rng with
  | .error e => .error e
  | .ok (c, r1) =>
    match _generate_facial_condition M cfgF
        (match seed with | none => none | some i => some (i + 1)) r1 with
    | .error e => .error e
    | .ok (f, r2) =>
      .ok ((if c ≠ "" ∧ f ≠ "" then c ++ ", " ++ f
            else if c ≠ "" then c
            else if f ≠ "" then f
            else ""), r2)

/-- Embeds `_generate_all_conditions(seed)`: character with `seed`, facial with
`seed + 1`, occupation with `seed + 2` (offsets only when a seed is given),
then append each non-empty fragment to `parts` and `", ".join(parts)`. -/
def _generate_all_conditions {σ : Type} (M : RandModel σ) (cfgF cfgO : AxisConfig)
    (seed : Option Int) (rng : σ) : Except PyError (String × σ) :=
  match _generate_character_condition M seed rng with
  | .error e => .error e
  | .ok (c, r1) =>
    match _generate_facial_condition M cfgF
        (match seed with | none => none | some i => some (i + 1)) r1 with
    | .error e => .error e
    | .ok (f, r2) =>
      match _generate_occupation_condition M cfgO
          (match seed with | none => none | some i => some (i + 2)) r2 with
      | .error e => .error e
      | .ok (o, r3) =>
        .ok (pyJoin ", "
          ((if c ≠ "" then [c] else []) ++ (if f ≠ "" then [f] else []) ++
           (if o ≠ "" then [o] else [])), r3)

/-- Embeds `generate_condition_by_type(condition_type, seed)`: the exact,
case-sensitive `if/elif` dispatch; any other string logs a warning and
returns the empty string. -/
def generate_condition_by_type {σ : Type} (M : RandModel σ) (cfgF cfgO : AxisConfig)
    (condition_type : String) (seed : Option Int) (rng : σ) :
    Except PyError (String × σ) :=
  if condition_type = "None" then .ok ("", rng)
  else if condition_type = "Character" then _generate_character_condition M seed rng
  else if condition_type = "Facial" then _generate_facial_condition M cfgF seed rng
  else if condition_type = "Occupation" then _generate_occupation_condition M cfgO seed rng
  else if condition_type = "Both" then _generate_both_conditions M cfgF seed rng
  else if condition_type = "All" then _generate_all_conditions M cfgF cfgO seed rng
  else .ok ("", rng)

/-- The total weight `random.choices` computes for `weighted_choice(options,
weights)`: the last cumulative sum of the per-option resolved weights
(`weights.get(option, 1.0)`), `0` for an empty option list. -/
def weightTotal (options : List String) (w : List (String × PyFloat)) : PyFloat :=
  ((accum (options.map (fun o => (dictGet w o).getD (PyFloat.ofInt 1)))).getLast?).getD
    (PyFloat.ofInt 0)

/-- Sufficient condition for the selection loops never to raise on an axis
name: either the axis is not in the registry (it is skipped), or its value
list is non-empty and, when a non-empty weight entry exists, the resolved
total weight is positive. -/
def axisOk (cfg : AxisConfig) (a : String) : Bool :=
  match dictGet cfg.axes a with
  | none => true
  | some vals =>
    !vals.isEmpty &&
      (match dictGet cfg.weights a with
       | none => true
       | some w => w.isEmpty || decide ((PyFloat.ofInt 0).lt (weightTotal vals w)))

/-- The spec's combination operation: join the non-empty fragments with
`", "`. -/
def joinNonEmpty (l : List String) : String :=
  pyJoin ", " (l.filter (fun x => ¬ x = ""))

/-- The character-family configuration with the exclusion rules disabled
(used to state mandatory coverage "absent exclusion interference"). -/
def emptyExCfg : AxisConfig := { charConfig with exclusions := [] }

/-!
## A concrete lawful instance of the random model

Used to evaluate the embedding on closed inputs: a simple deterministic
stream whose state is a counter. -/

/-- A concrete `RandModel` over counter states: every primitive returns a
value determined by the counter and advances it. -/
def concreteM : RandModel Nat :=
  { seedFn := fun i => i.natAbs
    random := fun s => (⟨1, 2⟩, s + 1)
    choice := fun l s => (l.getD (s % l.length) "", s + 1)
    randint := fun lo hi s => (lo + s % (hi + 1 - lo), s + 1)
    sample := fun l k s => (l.take k, s + 1) }

theorem concreteM_lawful : LawfulRand concreteM := by
  constructor
  · intro l s hl
    have hlen : 0 < l.length := List.length_pos.mpr hl
    have hlt : s % l.length < l.length := Nat.mod_lt _ hlen
    show (l.getD (s % l.length) "") ∈ l
    rw [List.getD_eq_getElem l "" hlt]
    exact List.getElem_mem hlt
  · intro lo hi s h
    have hpos : 0 < hi + 1 - lo := by omega
    have := Nat.mod_lt s hpos
    simp only [concreteM]
    omega
  · intro l k s h
    simp [concreteM, List.length_take, Nat.min_eq_left h]
  · intro l k s x hx
    exact List.take_subset k l hx
  · intro l k s h
    exact h.sublist (List.take_sublist k l)

/-!
## Dictionary lemmas
-/

theorem dictGet_insert (d : Dict) (k v a : String) :
    dictGet (dictInsert d k v) a = if k = a then some v else dictGet d a := by
  induction d with
  | nil => simp [dictInsert, dictGet]
  | cons p rest ih =>
    obtain ⟨k', v'⟩ := p
    by_cases hk : k' = k
    · subst hk
      by_cases ha : k' = a <;> simp [dictInsert, dictGet, ha]
    · have hka : ¬ k = k' := fun hcut => hk hcut.symm
      by_cases ha : k' = a
      · subst ha
        simp [dictInsert, dictGet, hk, hka]
      · simp [dictInsert, dictGet, hk, ha, ih]

theorem mem_dictInsert {p : String × String} {d : Dict} {k v : String}
    (h : p ∈ dictInsert d k v) : p = (k, v) ∨ p ∈ d := by
  induction d with
  | nil =>
    left
    simpa [dictInsert] using h
  | cons q rest ih =>
    obtain ⟨k', v'⟩ := q
    simp only [dictInsert] at h
    by_cases hk : k' = k
    · rw [if_pos hk] at h
      rcases List.mem_cons.mp h with h1 | h1
      · exact .inl h1
      · exact .inr (List.mem_cons_of_mem _ h1)
    · rw [if_neg hk] at h
      rcases List.mem_cons.mp h with h1 | h1
      · exact .inr (List.mem_cons.mpr (.inl h1))
      · rcases ih h1 with h2 | h2
        · exact .inl h2
        · exact .inr (List.mem_cons_of_mem _ h2)

theorem dictGet_isSome_iff_mem {α : Type} (l : List (String × α)) (k : String) :
    (dictGet l k).isSome = true ↔ k ∈ l.map Prod.fst := by
  induction l with
  | nil => simp [dictGet]
  | cons p rest ih =>
    obtain ⟨k', v'⟩ := p
    by_cases hk : k' = k
    · subst hk
      simp [dictGet]
    · have hk2 : ¬ k = k' := fun hcut => hk hcut.symm
      simp [dictGet, hk, hk2, ih]

theorem keys_dictInsert (d : Dict) (k v : String) :
    (dictInsert d k v).map Prod.fst =
      if k ∈ d.map Prod.fst then d.map Prod.fst else d.map Prod.fst ++ [k] := by
  induction d with
  | nil => simp [dictInsert]
  | cons p rest ih =>
    obtain ⟨k', v'⟩ := p
    by_cases hk : k' = k
    · subst hk
      simp [dictInsert]
    · have hk2 : ¬ k = k' := fun hcut => hk hcut.symm
      by_cases hmem : k ∈ rest.map Prod.fst
      · simp [dictInsert, hk, hk2, hmem, ih]
      · simp [dictInsert, hk, hk2, hmem, ih]

theorem nodup_keys_dictInsert {d : Dict} (k v : String)
    (h : (d.map Prod.fst).Nodup) : ((dictInsert d k v).map Prod.fst).Nodup := by
  rw [keys_dictInsert]
  by_cases hmem : k ∈ d.map Prod.fst
  · rw [if_pos hmem]
    exact h
  · rw [if_neg hmem]
    rw [List.nodup_append]
    refine ⟨h, List.nodup_singleton k, ?_⟩
    intro a ha hb
    rw [List.mem_singleton] at hb
    subst hb
    exact hmem ha

theorem dictPop_sublist (d : Dict) (k : String) : (dictPop d k).Sublist d := by
  induction d with
  | nil => simp [dictPop]
  | cons p rest ih =>
    obtain ⟨k', v'⟩ := p
    by_cases hk : k' = k
    · simp only [dictPop, if_pos hk]
      exact List.sublist_cons_self _ _
    · simp only [dictPop, if_neg hk]
      exact List.Sublist.cons₂ _ ih

theorem dictGet_eq_none_iff {α : Type} (l : List (String × α)) (k : String) :
    dictGet l k = none ↔ ∀ v, (k, v) ∉ l := by
  induction l with
  | nil => simp [dictGet]
  | cons p rest ih =>
    obtain ⟨k', v'⟩ := p
    by_cases hk : k' = k
    · constructor
      · intro hnone
        simp [dictGet, hk] at hnone
      · intro hall
        exfalso
        exact hall v' (by rw [← hk]; exact List.mem_cons_self _ _)
    · simp only [dictGet, if_neg hk]
      rw [ih]
      constructor
      · intro hall v hv
        rcases List.mem_cons.mp hv with h1 | h1
        · exact hk (congrArg Prod.fst h1).symm
        · exact hall v h1
      · intro hall v hv
        exact hall v (List.mem_cons_of_mem _ hv)

theorem dictGet_of_mem {α : Type} {l : List (String × α)} {k : String} {v : α}
    (h : (l.map Prod.fst).Nodup) (hm : (k, v) ∈ l) : dictGet l k = some v := by
  induction l with
  | nil => simp at hm
  | cons p rest ih =>
    obtain ⟨k', v'⟩ := p
    simp only [List.map_cons, List.nodup_cons] at h
    rcases List.mem_cons.mp hm with hv | hv
    · have hk : k' = k := (congrArg Prod.fst hv).symm
      have hvv : v' = v := (congrArg Prod.snd hv).symm
      simp [dictGet, hk, hvv]
    · have hk : ¬ k' = k := by
        intro hcut
        apply h.1
        subst hcut
        exact List.mem_map_of_mem Prod.fst hv
      simp [dictGet, hk, ih h.2 hv]

theorem dictGet_pop {d : Dict} (k a : String) (h : (d.map Prod.fst).Nodup) :
    dictGet (dictPop d k) a = if k = a then none else dictGet d a := by
  induction d with
  | nil => simp [dictPop, dictGet]
  | cons p rest ih =>
    obtain ⟨k', v'⟩ := p
    simp only [List.map_cons, List.nodup_cons] at h
    by_cases hk : k' = k
    · simp only [dictPop, if_pos hk]
      by_cases ha : k = a
      · rw [if_pos ha]
        cases hval : dictGet rest a with
        | none => rfl
        | some w =>
          exfalso
          apply h.1
          have hmem : a ∈ rest.map Prod.fst :=
            (dictGet_isSome_iff_mem rest a).mp (by rw [hval]; rfl)
          have hka : k' = a := hk.trans ha
          rw [hka]
          exact hmem
      · rw [if_neg ha]
        have hk'a : ¬ k' = a := fun hcut => ha (hk.symm.trans hcut)
        simp [dictGet, hk'a]
    · simp only [dictPop, if_neg hk]
      by_cases ha : k' = a
      · have hka : ¬ k = a := fun hcut => hk (ha.trans hcut.symm)
        simp [dictGet, ha, hka]
      · simp [dictGet, ha, ih h.2]

/-!
## Cumulative-sum and bisection lemmas
-/

theorem accumFrom_length (acc : PyFloat) (l : List PyFloat) :
    (accumFrom acc l).length = l.length := by
  induction l generalizing acc with
  | nil => rfl
  | cons x xs ih => simp [accumFrom, ih]

theorem bisectAux_le (a : List PyFloat) (x : PyFloat) :
    ∀ (fuel lo hi : Nat), lo ≤ hi → bisectAux a x fuel lo hi ≤ hi := by
  intro fuel
  induction fuel with
  | zero =>
    intro lo hi h
    simpa [bisectAux] using h
  | succ n ih =>
    intro lo hi h
    simp only [bisectAux]
    by_cases hlt : lo < hi
    · rw [if_pos hlt]
      by_cases hx : x.lt (a.getD ((lo + hi) / 2) (PyFloat.ofInt 0))
      · rw [if_pos hx]
        exact le_trans (ih lo ((lo + hi) / 2) (by omega)) (by omega)
      · rw [if_neg hx]
        exact ih ((lo + hi) / 2 + 1) hi (by omega)
    · rw [if_neg hlt]
      exact h

theorem bisectRight_le (a : List PyFloat) (x : PyFloat) (lo hi : Nat) (h : lo ≤ hi) :
    bisectRight a x lo hi ≤ hi :=
  bisectAux_le a x (hi - lo) lo hi h

theorem getLast?_isSome_of_ne_nil {α : Type} (l : List α) (h : l ≠ []) :
    ∃ y, l.getLast? = some y := by
  cases l with
  | nil => exact absurd rfl h
  | cons a as =>
    clear h
    induction as generalizing a with
    | nil => exact ⟨a, rfl⟩
    | cons b bs ih =>
      rw [List.getLast?_cons_cons]
      exact ih b

theorem accum_ne_nil {l : List PyFloat} (h : l ≠ []) : accum l ≠ [] := by
  intro hc
  apply h
  have hlen := accumFrom_length (PyFloat.ofInt 0) l
  rw [show accum l = accumFrom (PyFloat.ofInt 0) l from rfl] at hc
  rw [hc] at hlen
  exact List.length_eq_zero.mp hlen.symm

theorem PyFloat_zero_lt_iff_not_le (t : PyFloat) :
    (PyFloat.ofInt 0).lt t ↔ ¬ t.le (PyFloat.ofInt 0) := by
  simp only [PyFloat.lt, PyFloat.le, PyFloat.ofInt]
  omega

/-!
## Lemmas about `weighted_choice`
-/

theorem pyChoice_ok {σ : Type} (M : RandModel σ) {options : List String} (s : σ)
    (h : options ≠ []) : pyChoice M options s = .ok (M.choice options s) := by
  unfold pyChoice
  rw [if_neg (by simpa using h)]

theorem pyChoice_ok_mem {σ : Type} {M : RandModel σ} (hM : LawfulRand M)
    {options : List String} {s : σ} {v : String} {s' : σ}
    (h : pyChoice M options s = .ok (v, s')) : v ∈ options := by
  unfold pyChoice at h
  by_cases he : options.isEmpty
  · rw [if_pos he] at h
    simp at h
  · rw [if_neg he] at h
    have hne : options ≠ [] := by
      intro hnil
      exact he (by simp [hnil])
    have hmem := hM.choice_mem options s hne
    have h1 : M.choice options s = (v, s') := by injection h
    rw [h1] at hmem
    exact hmem

theorem pyChoicesWeighted_ok_mem {σ : Type} {M : RandModel σ}
    {population : List String} {weights : List PyFloat} {s : σ} {v : String} {s' : σ}
    (h : pyChoicesWeighted M population weights s = .ok (v, s')) : v ∈ population := by
  unfold pyChoicesWeighted at h
  by_cases hlen : population.length ≠ weights.length
  · rw [if_pos hlen] at h
    simp at h
  · rw [if_neg hlen] at h
    cases hlast : (accum weights).getLast? with
    | none =>
      rw [hlast] at h
      simp at h
    | some total =>
      rw [hlast] at h
      dsimp only at h
      by_cases htot : total.le (PyFloat.ofInt 0)
      · rw [if_pos htot] at h
        simp at h
      · rw [if_neg htot] at h
        have hpop : population ≠ [] := by
          intro hnil
          have hw : weights = [] := by
            rw [not_not] at hlen
            rw [hnil] at hlen
            exact List.length_eq_zero.mp hlen.symm
          rw [hw] at hlast
          simp [accum, accumFrom] at hlast
        have hlenpos : 0 < population.length := List.length_pos.mpr hpop
        have hidx : bisectRight (accum weights) ((M.random s).1.mul total) 0
            (population.length - 1) < population.length := by
          have := bisectRight_le (accum weights) ((M.random s).1.mul total) 0
            (population.length - 1) (by omega)
          omega
        have h1 : population.getD (bisectRight (accum weights)
            ((M.random s).1.mul total) 0 (population.length - 1)) "" = v := by
          injection h with h2
          exact congrArg Prod.fst h2
        rw [List.getD_eq_getElem population "" hidx] at h1
        rw [← h1]
        exact List.getElem_mem hidx

theorem weighted_choice_ok_mem {σ : Type} {M : RandModel σ} (hM : LawfulRand M)
    {options : List String} {weights : Option (List (String × PyFloat))} {s : σ}
    {v : String} {s' : σ}
    (h : weighted_choice M options weights s = .ok (v, s')) : v ∈ options := by
  cases weights with
  | none => exact pyChoice_ok_mem hM (by simpa [weighted_choice] using h)
  | some w =>
    simp only [weighted_choice] at h
    by_cases hw : w.isEmpty
    · rw [if_pos hw] at h
      exact pyChoice_ok_mem hM h
    · rw [if_neg hw] at h
      exact pyChoicesWeighted_ok_mem h

theorem weighted_choice_ok_total_pos {σ : Type} (M : RandModel σ)
    {options : List String} {w : List (String × PyFloat)} (s : σ)
    (hopts : options ≠ []) (hw : ¬ w.isEmpty)
    (hpos : (PyFloat.ofInt 0).lt (weightTotal options w)) :
    ∃ v s2, weighted_choice M options (some w) s = .ok (v, s2) := by
  simp only [weighted_choice]
  rw [if_neg hw]
  unfold pyChoicesWeighted
  rw [if_neg (by simp)]
  have hws : (options.map (fun o => (dictGet w o).getD (PyFloat.ofInt 1))) ≠ [] := by
    simpa using hopts
  obtain ⟨t, ht⟩ := getLast?_isSome_of_ne_nil _ (accum_ne_nil hws)
  rw [ht]
  dsimp only
  have htpos : (PyFloat.ofInt 0).lt t := by
    have : weightTotal options w = t := by
      rw [weightTotal, ht]
      rfl
    rw [this] at hpos
    exact hpos
  rw [if_neg ((PyFloat_zero_lt_iff_not_le t).mp htpos)]
  exact ⟨_, _, rfl⟩

theorem weighted_choice_ok_none {σ : Type} (M : RandModel σ)
    {options : List String} (s : σ) (hopts : options ≠ []) :
    ∃ v s2, weighted_choice M options none s = .ok (v, s2) := by
  simp only [weighted_choice]
  rw [pyChoice_ok M s hopts]
  exact ⟨_, _, rfl⟩

theorem weighted_choice_ok_empty {σ : Type} (M : RandModel σ)
    {options : List String} {w : List (String × PyFloat)} (s : σ)
    (hopts : options ≠ []) (hw : w.isEmpty) :
    ∃ v s2, weighted_choice M options (some w) s = .ok (v, s2) := by
  simp only [weighted_choice]
  rw [if_pos hw, pyChoice_ok M s hopts]
  exact ⟨_, _, rfl⟩

/-!
## Lemmas about the exclusion phase
-/

theorem removeBlocked_sublist (m : Dict) (p : String × List String) :
    (removeBlocked m p).Sublist m := by
  obtain ⟨ba, bvs⟩ := p
  cases hv : dictGet m ba with
  | none => simp [removeBlocked, hv]
  | some v =>
    simp only [removeBlocked, hv]
    by_cases hvin : v ∈ bvs
    · rw [if_pos hvin]
      exact dictPop_sublist m ba
    · rw [if_neg hvin]

theorem foldl_removeBlocked_sublist (bl : List (String × List String)) (m : Dict) :
    (bl.foldl removeBlocked m).Sublist m := by
  induction bl generalizing m with
  | nil => exact List.Sublist.refl m
  | cons p bl ih =>
    rw [List.foldl_cons]
    exact (ih (removeBlocked m p)).trans (removeBlocked_sublist m p)

theorem applyExclusion_sublist (m : Dict)
    (r : (String × String) × List (String × List String)) :
    (applyExclusion m r).Sublist m := by
  unfold applyExclusion
  by_cases htr : dictGet m r.1.1 = some r.1.2
  · rw [if_pos htr]
    exact foldl_removeBlocked_sublist r.2 m
  · rw [if_neg htr]

theorem exclusionPass_sublist (m : Dict)
    (rules : List ((String × String) × List (String × List String))) :
    (exclusionPass m rules).Sublist m := by
  induction rules generalizing m with
  | nil => exact List.Sublist.refl m
  | cons r rules ih =>
    show (List.foldl applyExclusion (applyExclusion m r) rules).Sublist m
    exact (ih (applyExclusion m r)).trans (applyExclusion_sublist m r)

theorem removeBlocked_get {m : Dict} (h : (m.map Prod.fst).Nodup)
    (p : String × List String) (x : String) :
    dictGet (removeBlocked m p) x =
      if p.1 = x ∧ ∃ v, dictGet m p.1 = some v ∧ v ∈ p.2 then none
      else dictGet m x := by
  obtain ⟨ba, bvs⟩ := p
  cases hv : dictGet m ba with
  | none => simp [removeBlocked, hv]
  | some v =>
    simp only [removeBlocked, hv]
    by_cases hvin : v ∈ bvs
    · rw [if_pos hvin, dictGet_pop ba x h]
      by_cases hax : ba = x
      · rw [if_pos hax, if_pos ⟨hax, v, rfl, hvin⟩]
      · rw [if_neg hax, if_neg (fun hc => hax hc.1)]
    · rw [if_neg hvin, if_neg]
      rintro ⟨-, u, hu, huin⟩
      injection hu with hu
      rw [hu] at hvin
      exact hvin huin

theorem foldl_removeBlocked_get {bl : List (String × List String)} {m : Dict}
    (h : (m.map Prod.fst).Nodup) (a : String) :
    dictGet (bl.foldl removeBlocked m) a =
      if ∃ q ∈ bl, q.1 = a ∧ ∃ v, dictGet m a = some v ∧ v ∈ q.2 then none
      else dictGet m a := by
  induction bl generalizing m with
  | nil => simp
  | cons p bl ih =>
    obtain ⟨ba, bvs⟩ := p
    have hm' : (((removeBlocked m (ba, bvs)).map Prod.fst)).Nodup :=
      h.sublist ((removeBlocked_sublist m (ba, bvs)).map Prod.fst)
    rw [List.foldl_cons, ih hm']
    have e := removeBlocked_get h (ba, bvs) a
    by_cases hhead : ba = a ∧ ∃ v, dictGet m a = some v ∧ v ∈ bvs
    · have ha : dictGet (removeBlocked m (ba, bvs)) a = none := by
        rw [e, if_pos ?_]
        obtain ⟨h1, v, h2, h3⟩ := hhead
        exact ⟨h1, v, by rw [h1]; exact h2, h3⟩
      rw [ha]
      rw [if_neg ?_]
      · rw [if_pos ?_]
        obtain ⟨h1, v, h2, h3⟩ := hhead
        exact ⟨(ba, bvs), List.mem_cons_self _ _, h1, v, h2, h3⟩
      · rintro ⟨q, hq, hq1, v, hv, hvin⟩
        exact Option.noConfusion hv
    · have ha : dictGet (removeBlocked m (ba, bvs)) a = dictGet m a := by
        rw [e, if_neg ?_]
        rintro ⟨h1, v, h2, h3⟩
        exact hhead ⟨h1, v, by rw [← h1]; exact h2, h3⟩
      rw [ha]
      by_cases htail : ∃ q ∈ bl, q.1 = a ∧ ∃ v, dictGet m a = some v ∧ v ∈ q.2
      · rw [if_pos htail, if_pos ?_]
        obtain ⟨q, hq, hrest⟩ := htail
        exact ⟨q, List.mem_cons_of_mem _ hq, hrest⟩
      · rw [if_neg htail, if_neg ?_]
        rintro ⟨q, hq, hq1, v, hv, hvin⟩
        rcases List.mem_cons.mp hq with hq' | hq'
        · rw [hq'] at hq1 hvin
          exact hhead ⟨hq1, v, hv, hvin⟩
        · exact htail ⟨q, hq', hq1, v, hv, hvin⟩

theorem applyExclusion_get {m : Dict} (h : (m.map Prod.fst).Nodup)
    (ta tv : String) (bl : List (String × List String)) (a : String) :
    dictGet (applyExclusion m ((ta, tv), bl)) a =
      if dictGet m ta = some tv ∧
          ∃ q ∈ bl, q.1 = a ∧ ∃ v, dictGet m a = some v ∧ v ∈ q.2
      then none else dictGet m a := by
  show dictGet (if dictGet m ta = some tv then bl.foldl removeBlocked m else m) a = _
  by_cases htr : dictGet m ta = some tv
  · rw [if_pos htr, foldl_removeBlocked_get h a]
    by_cases hc : ∃ q ∈ bl, q.1 = a ∧ ∃ v, dictGet m a = some v ∧ v ∈ q.2
    · rw [if_pos hc, if_pos ⟨htr, hc⟩]
    · rw [if_neg hc, if_neg (fun hcc => hc hcc.2)]
  · rw [if_neg htr, if_neg (fun hcc => htr hcc.1)]

/-!
## Lemmas about the selection loops and the generation body
-/

theorem axisLoop_ok {σ : Type} (M : RandModel σ) (cfg : AxisConfig) :
    ∀ (axes : List String) (d : Dict) (s : σ),
      (∀ a ∈ axes, axisOk cfg a = true) →
      ∃ d' s', axisLoop M cfg axes d s = .ok (d', s') := by
  intro axes
  induction axes with
  | nil =>
    intro d s _
    exact ⟨d, s, rfl⟩
  | cons a rest ih =>
    intro d s h
    have ha := h a (List.mem_cons_self _ _)
    have hrest := fun b hb => h b (List.mem_cons_of_mem _ hb)
    cases hax : dictGet cfg.axes a with
    | none =>
      obtain ⟨d', s', hrec⟩ := ih d s hrest
      refine ⟨d', s', ?_⟩
      simp only [axisLoop]
      rw [hax]
      exact hrec
    | some vals =>
      unfold axisOk at ha
      rw [hax] at ha
      dsimp only at ha
      rw [Bool.and_eq_true] at ha
      obtain ⟨hv, hwcond⟩ := ha
      have hvals : vals ≠ [] := by
        intro hc
        rw [hc] at hv
        simp at hv
      have hwc : ∃ v s2, weighted_choice M vals (dictGet cfg.weights a) s = .ok (v, s2) := by
        cases hwt : dictGet cfg.weights a with
        | none => exact weighted_choice_ok_none M s hvals
        | some w =>
          rw [hwt] at hwcond
          dsimp only at hwcond
          rw [Bool.or_eq_true] at hwcond
          by_cases hwe : w.isEmpty
          · exact weighted_choice_ok_empty M s hvals hwe
          · rcases hwcond with hwcond | hwcond
            · exact absurd hwcond hwe
            · exact weighted_choice_ok_total_pos M s hvals hwe (of_decide_eq_true hwcond)
      obtain ⟨v, s2, hwc⟩ := hwc
      obtain ⟨d', s', hrec⟩ := ih (dictInsert d a v) s2 hrest
      refine ⟨d', s', ?_⟩
      simp only [axisLoop]
      rw [hax]
      dsimp only
      rw [hwc]
      exact hrec

theorem axisLoop_get_mono {σ : Type} {M : RandModel σ} {cfg : AxisConfig} :
    ∀ {axes : List String} {d : Dict} {s : σ} {d' : Dict} {s' : σ},
      axisLoop M cfg axes d s = .ok (d', s') →
      ∀ a, (dictGet d a).isSome = true → (dictGet d' a).isSome = true := by
  intro axes
  induction axes with
  | nil =>
    intro d s d' s' h a hsome
    simp only [axisLoop] at h
    injection h with h1
    have hd : d = d' := congrArg Prod.fst h1
    rw [← hd]
    exact hsome
  | cons ax rest ih =>
    intro d s d' s' h a hsome
    simp only [axisLoop] at h
    cases hax : dictGet cfg.axes ax with
    | none =>
      rw [hax] at h
      exact ih h a hsome
    | some vals =>
      rw [hax] at h
      dsimp only at h
      cases hwc : weighted_choice M vals (dictGet cfg.weights ax) s with
      | error e =>
        rw [hwc] at h
        simp at h
      | ok p =>
        obtain ⟨v, s2⟩ := p
        rw [hwc] at h
        refine ih h a ?_
        rw [dictGet_insert]
        by_cases hx : ax = a
        · rw [if_pos hx]
          rfl
        · rw [if_neg hx]
          exact hsome

theorem axisLoop_covers {σ : Type} {M : RandModel σ} {cfg : AxisConfig} :
    ∀ {axes : List String} {d : Dict} {s : σ} {d' : Dict} {s' : σ},
      axisLoop M cfg axes d s = .ok (d', s') →
      ∀ a ∈ axes, (dictGet cfg.axes a).isSome = true →
      (dictGet d' a).isSome = true := by
  intro axes
  induction axes with
  | nil =>
    intro d s d' s' _ a ha
    simp at ha
  | cons ax rest ih =>
    intro d s d' s' h a ha hreg
    simp only [axisLoop] at h
    rcases List.mem_cons.mp ha with hax | hax
    · subst hax
      cases haxv : dictGet cfg.axes a with
      | none =>
        rw [haxv] at hreg
        simp at hreg
      | some vals =>
        rw [haxv] at h
        dsimp only at h
        cases hwc : weighted_choice M vals (dictGet cfg.weights a) s with
        | error e =>
          rw [hwc] at h
          simp at h
        | ok p =>
          obtain ⟨v, s2⟩ := p
          rw [hwc] at h
          refine axisLoop_get_mono h a ?_
          rw [dictGet_insert, if_pos rfl]
          rfl
    · cases haxv : dictGet cfg.axes ax with
      | none =>
        rw [haxv] at h
        exact ih h a hax hreg
      | some vals =>
        rw [haxv] at h
        dsimp only at h
        cases hwc : weighted_choice M vals (dictGet cfg.weights ax) s with
        | error e =>
          rw [hwc] at h
          simp at h
        | ok p =>
          obtain ⟨v, s2⟩ := p
          rw [hwc] at h
          exact ih h a hax hreg

theorem axisLoop_keys_or {σ : Type} {M : RandModel σ} {cfg : AxisConfig} :
    ∀ {axes : List String} {d : Dict} {s : σ} {d' : Dict} {s' : σ},
      axisLoop M cfg axes d s = .ok (d', s') →
      ∀ a, (dictGet d' a).isSome = true →
      (dictGet d a).isSome = true ∨ a ∈ axes := by
  intro axes
  induction axes with
  | nil =>
    intro d s d' s' h a hsome
    simp only [axisLoop] at h
    injection h with h1
    have hd : d = d' := congrArg Prod.fst h1
    rw [hd]
    exact .inl hsome
  | cons ax rest ih =>
    intro d s d' s' h a hsome
    simp only [axisLoop] at h
    cases hax : dictGet cfg.axes ax with
    | none =>
      rw [hax] at h
      rcases ih h a hsome with h1 | h1
      · exact .inl h1
      · exact .inr (List.mem_cons_of_mem _ h1)
    | some vals =>
      rw [hax] at h
      dsimp only at h
      cases hwc : weighted_choice M vals (dictGet cfg.weights ax) s with
      | error e =>
        rw [hwc] at h
        simp at h
      | ok p =>
        obtain ⟨v, s2⟩ := p
        rw [hwc] at h
        rcases ih h a hsome with h1 | h1
        · rw [dictGet_insert] at h1
          by_cases hx : ax = a
          · exact .inr (List.mem_cons.mpr (.inl hx.symm))
          · rw [if_neg hx] at h1
            exact .inl h1
        · exact .inr (List.mem_cons_of_mem _ h1)

theorem axisLoop_nodup_keys {σ : Type} {M : RandModel σ} {cfg : AxisConfig} :
    ∀ {axes : List String} {d : Dict} {s : σ} {d' : Dict} {s' : σ},
      axisLoop M cfg axes d s = .ok (d', s') →
      (d.map Prod.fst).Nodup → (d'.map Prod.fst).Nodup := by
  intro axes
  induction axes with
  | nil =>
    intro d s d' s' h hnd
    simp only [axisLoop] at h
    injection h with h1
    have hd : d = d' := congrArg Prod.fst h1
    rw [← hd]
    exact hnd
  | cons ax rest ih =>
    intro d s d' s' h hnd
    simp only [axisLoop] at h
    cases hax : dictGet cfg.axes ax with
    | none =>
      rw [hax] at h
      exact ih h hnd
    | some vals =>
      rw [hax] at h
      dsimp only at h
      cases hwc : weighted_choice M vals (dictGet cfg.weights ax) s with
      | error e =>
        rw [hwc] at h
        simp at h
      | ok p =>
        obtain ⟨v, s2⟩ := p
        rw [hwc] at h
        exact ih h (nodup_keys_dictInsert ax v hnd)

theorem axisLoop_wf {σ : Type} {M : RandModel σ} (hM : LawfulRand M) {cfg : AxisConfig} :
    ∀ {axes : List String} {d : Dict} {s : σ} {d' : Dict} {s' : σ},
      axisLoop M cfg axes d s = .ok (d', s') →
      (∀ p ∈ d, ∃ vs, dictGet cfg.axes p.1 = some vs ∧ p.2 ∈ vs) →
      ∀ p ∈ d', ∃ vs, dictGet cfg.axes p.1 = some vs ∧ p.2 ∈ vs := by
  intro axes
  induction axes with
  | nil =>
    intro d s d' s' h hwf
    simp only [axisLoop] at h
    injection h with h1
    have hd : d = d' := congrArg Prod.fst h1
    rw [← hd]
    exact hwf
  | cons ax rest ih =>
    intro d s d' s' h hwf
    simp only [axisLoop] at h
    cases hax : dictGet cfg.axes ax with
    | none =>
      rw [hax] at h
      exact ih h hwf
    | some vals =>
      rw [hax] at h
      dsimp only at h
      cases hwc : weighted_choice M vals (dictGet cfg.weights ax) s with
      | error e =>
        rw [hwc] at h
        simp at h
      | ok p =>
        obtain ⟨v, s2⟩ := p
        rw [hwc] at h
        refine ih h ?_
        intro q hq
        rcases mem_dictInsert hq with hq1 | hq1
        · rw [hq1]
          exact ⟨vals, hax, weighted_choice_ok_mem hM hwc⟩
        · exact hwf q hq1

theorem genFrom_ok_inv {σ : Type} {M : RandModel σ} {cfg : AxisConfig} {s0 : σ}
    {m : Dict} {r' : σ} (h : genFrom M cfg s0 = .ok (m, r')) :
    ∃ m1 s1 num s2 optAxes s3 m2,
      axisLoop M cfg cfg.mandatory [] s0 = .ok (m1, s1) ∧
      pyRandint M 0 (min cfg.maxOptional cfg.optional.length) s1 = .ok (num, s2) ∧
      pySample M cfg.optional num s2 = .ok (optAxes, s3) ∧
      axisLoop M cfg optAxes m1 s3 = .ok (m2, r') ∧
      m = exclusionPass m2 cfg.exclusions := by
  unfold genFrom at h
  cases h1 : axisLoop M cfg cfg.mandatory [] s0 with
  | error e =>
    rw [h1] at h
    simp at h
  | ok p1 =>
    obtain ⟨m1, s1⟩ := p1
    rw [h1] at h
    dsimp only at h
    cases h2 : pyRandint M 0 (min cfg.maxOptional cfg.optional.length) s1 with
    | error e =>
      rw [h2] at h
      simp at h
    | ok p2 =>
      obtain ⟨num, s2⟩ := p2
      rw [h2] at h
      dsimp only at h
      cases h3 : pySample M cfg.optional num s2 with
      | error e =>
        rw [h3] at h
        simp at h
      | ok p3 =>
        obtain ⟨optAxes, s3⟩ := p3
        rw [h3] at h
        dsimp only at h
        cases h4 : axisLoop M cfg optAxes m1 s3 with
        | error e =>
          rw [h4] at h
          simp at h
        | ok p4 =>
          obtain ⟨m2, s4⟩ := p4
          rw [h4] at h
          dsimp only at h
          injection h with h5
          have hm : exclusionPass m2 cfg.exclusions = m := congrArg Prod.fst h5
          have hs : s4 = r' := congrArg Prod.snd h5
          refine ⟨m1, s1, num, s2, optAxes, s3, m2, rfl, h2, h3, ?_, hm.symm⟩
          rw [← hs]
          exact h4

theorem genFrom_ok {σ : Type} {M : RandModel σ} (hM : LawfulRand M) (cfg : AxisConfig)
    (s0 : σ)
    (hmand : ∀ a ∈ cfg.mandatory, axisOk cfg a = true)
    (hopt : ∀ a ∈ cfg.optional, axisOk cfg a = true) :
    ∃ m2 s4, genFrom M cfg s0 =
      .ok (exclusionPass m2 cfg.exclusions, s4) := by
  obtain ⟨m1, s1, h1⟩ := axisLoop_ok M cfg cfg.mandatory [] s0 hmand
  have h2 : pyRandint M 0 (min cfg.maxOptional cfg.optional.length) s1 =
      .ok (M.randint 0 (min cfg.maxOptional cfg.optional.length) s1) := by
    unfold pyRandint
    rw [if_neg (by omega)]
  have hnum : (M.randint 0 (min cfg.maxOptional cfg.optional.length) s1).1 ≤
      cfg.optional.length :=
    le_trans (hM.randint_le _ _ _ (Nat.zero_le _)) (min_le_right _ _)
  have h3 : pySample M cfg.optional
      (M.randint 0 (min cfg.maxOptional cfg.optional.length) s1).1
      (M.randint 0 (min cfg.maxOptional cfg.optional.length) s1).2 =
      .ok (M.sample cfg.optional
        (M.randint 0 (min cfg.maxOptional cfg.optional.length) s1).1
        (M.randint 0 (min cfg.maxOptional cfg.optional.length) s1).2) := by
    unfold pySample
    rw [if_neg (by omega)]
  obtain ⟨m2, s4, h4⟩ := axisLoop_ok M cfg
    (M.sample cfg.optional
      (M.randint 0 (min cfg.maxOptional cfg.optional.length) s1).1
      (M.randint 0 (min cfg.maxOptional cfg.optional.length) s1).2).1 m1
    (M.sample cfg.optional
      (M.randint 0 (min cfg.maxOptional cfg.optional.length) s1).1
      (M.randint 0 (min cfg.maxOptional cfg.optional.length) s1).2).2
    (fun a ha => hopt a (hM.sample_subset _ _ _ a ha))
  refine ⟨m2, s4, ?_⟩
  unfold genFrom
  rw [h1]
  dsimp only
  rw [h2]
  dsimp only
  rw [h3]
  dsimp only
  rw [h4]

theorem pyJoin_two_ifs (c f : String) :
    (if c ≠ "" ∧ f ≠ "" then c ++ ", " ++ f
     else if c ≠ "" then c else if f ≠ "" then f else "") = joinNonEmpty [c, f] := by
  by_cases hc : c = "" <;> by_cases hf : f = "" <;>
    simp [joinNonEmpty, pyJoin, hc, hf]

theorem pyJoin_three_ifs (c f o : String) :
    pyJoin ", " ((if c ≠ "" then [c] else []) ++ (if f ≠ "" then [f] else []) ++
        (if o ≠ "" then [o] else [])) = joinNonEmpty [c, f, o] := by
  by_cases hc : c = "" <;> by_cases hf : f = "" <;> by_cases ho : o = "" <;>
    simp [joinNonEmpty, pyJoin, hc, hf, ho]

/-!
## The claims
-/

/-- C1: for every integer seed and every family configuration, two calls to
`generate_condition` with that seed return equal result mappings (same keys,
values and insertion order) regardless of the incoming state of the random
source: the seeded call reseeds the source before any draw, so the output is
a deterministic function of the seed and the configuration alone. -/
theorem seeded_reproducibility {σ : Type} (M : RandModel σ) (cfg : AxisConfig)
    (i : Int) (rng1 rng2 : σ) :
    generate_condition M cfg (some i) rng1 = generate_condition M cfg (some i) rng2 := rfl

/-- C2: the exclusion phase is one linear pass: processing a rule list is
processing the head rule then the remaining rules on the mutated result
(first conjunct); one rule removes exactly those blocked axes whose current
value is blocked, and only when the trigger matches the current state, never
touching other entries (second conjunct); and on a chain where rule A's
trigger value is itself removed by a later rule B, A's removal is not
retroactively un-applied: with A = (a=v1 blocks b=w) and B = (c=u blocks
a=v1), the state {a: v1, b: w, c: u} passes to {c: u}, not to {b: w, c: u}
as a fixpoint re-evaluation would give (third conjunct). -/
theorem exclusion_single_pass :
    (∀ (m : Dict) (r : (String × String) × List (String × List String)) rules,
        exclusionPass m (r :: rules) = exclusionPass (applyExclusion m r) rules) ∧
    (∀ (m : Dict), (m.map Prod.fst).Nodup →
      ∀ (ta tv : String) (bl : List (String × List String)) (a : String),
        dictGet (applyExclusion m ((ta, tv), bl)) a =
          if dictGet m ta = some tv ∧
              ∃ q ∈ bl, q.1 = a ∧ ∃ v, dictGet m a = some v ∧ v ∈ q.2
          then none else dictGet m a) ∧
    exclusionPass [("a", "v1"), ("b", "w"), ("c", "u")]
        [(("a", "v1"), [("b", ["w"])]), (("c", "u"), [("a", ["v1"])])] = [("c", "u")] := by
  refine ⟨?_, ?_, by decide⟩
  · intro m r rules
    rfl
  · intro m h ta tv bl a
    exact applyExclusion_get h ta tv bl a

theorem exclusion_single_pass_witness :
    dictGet (applyExclusion [("wealth", "decadent"), ("physique", "frail")]
      (("wealth", "decadent"), [("physique", ["frail"]), ("health", ["sickly"])]))
      "physique" = none := by
  rw [exclusion_single_pass.2.1 [("wealth", "decadent"), ("physique", "frail")]
    (by decide) "wealth" "decadent" [("physique", ["frail"]), ("health", ["sickly"])]
    "physique"]
  decide

/-- C3, counterexample: the claim says every weights mapping containing a
negative weight is rejected with an `InvalidWeight` error; but
`weighted_choice(["a","b"], {"a": -1, "b": 3})` contains the negative weight
`-1` and returns a selection (`"b"`) without any error, because the only
validation performed is `random.choices`' check that the total weight is
positive. -/
theorem negative_weight_not_rejected :
    weighted_choice concreteM ["a", "b"]
      (some [("a", PyFloat.ofInt (-1)), ("b", PyFloat.ofInt 3)]) 0 =
      .ok ("b", 1) := by decide

/-- C3, amended: `weighted_choice` performs no negative-weight validation of
its own and no `InvalidWeight` error exists; with a non-empty weights mapping
it fails — with the `ValueError` raised inside `random.choices` — exactly
when the total resolved weight is non-positive (as with `{"a": -1, "b": 1}`,
whose total is 0), and succeeds whenever the total is positive, even if an
individual weight is negative. -/
theorem weighted_choice_total_check {σ : Type} (M : RandModel σ)
    (options : List String) (w : List (String × PyFloat)) (s : σ)
    (hopts : options ≠ []) (hw : ¬ w.isEmpty) :
    ((weightTotal options w).le (PyFloat.ofInt 0) →
      weighted_choice M options (some w) s = .error .valueError) ∧
    ((PyFloat.ofInt 0).lt (weightTotal options w) →
      ∃ v s2, weighted_choice M options (some w) s = .ok (v, s2)) := by
  constructor
  · intro hle
    simp only [weighted_choice]
    rw [if_neg hw]
    unfold pyChoicesWeighted
    rw [if_neg (by simp)]
    have hws : (options.map (fun o => (dictGet w o).getD (PyFloat.ofInt 1))) ≠ [] := by
      simpa using hopts
    obtain ⟨t, ht⟩ := getLast?_isSome_of_ne_nil _ (accum_ne_nil hws)
    rw [ht]
    dsimp only
    have htw : weightTotal options w = t := by
      rw [weightTotal, ht]
      rfl
    rw [if_pos (by rw [← htw]; exact hle)]
  · intro hpos
    exact weighted_choice_ok_total_pos M s hopts hw hpos

theorem weighted_choice_total_check_witness :
    weighted_choice concreteM ["a", "b"]
      (some [("a", PyFloat.ofInt (-1)), ("b", PyFloat.ofInt 1)]) 0 =
      .error .valueError :=
  (weighted_choice_total_check concreteM ["a", "b"]
    [("a", PyFloat.ofInt (-1)), ("b", PyFloat.ofInt 1)] 0
    (by decide) (by decide)).1 (by decide)

/-- C6: `get_axis_values` returns the registry's ordered value list for every
defined axis name, and fails with the unknown-axis error (`KeyError`, the
spec's `UnknownAxisKind`) for every string that is not a defined axis name —
the failure is raised, not swallowed. -/
theorem axis_values_lookup (a : String) :
    (∀ vs, (a, vs) ∈ CONDITION_AXES → get_axis_values a = .ok vs) ∧
    (a ∉ CONDITION_AXES.map Prod.fst → get_axis_values a = .error .keyError) := by
  constructor
  · intro vs hvs
    unfold get_axis_values
    rw [dictGet_of_mem (by decide) hvs]
  · intro hno
    unfold get_axis_values
    have hnone : dictGet CONDITION_AXES a = none := by
      cases hv : dictGet CONDITION_AXES a with
      | none => rfl
      | some vs =>
        exact absurd ((dictGet_isSome_iff_mem CONDITION_AXES a).mp (by rw [hv]; rfl)) hno
    rw [hnone]

theorem axis_values_lookup_witness :
    get_axis_values "wealth" = .ok ["poor", "modest", "well-kept", "wealthy", "decadent"] ∧
    get_axis_values "not-a-real-axis" = .error .keyError :=
  ⟨(axis_values_lookup "wealth").1 _ (by decide),
   (axis_values_lookup "not-a-real-axis").2 (by decide)⟩

/-- C8: `condition_to_prompt` is pure and returns exactly the mapping's
values joined with `", "` in insertion order, with no axis names in the
output; the empty mapping renders as the empty string, and
`{"a": "v1", "b": "v2"}` renders as `"v1, v2"`. -/
theorem condition_to_prompt_join :
    (∀ m : Dict, condition_to_prompt m = pyJoin ", " (m.map Prod.snd)) ∧
    condition_to_prompt [] = "" ∧
    condition_to_prompt [("a", "v1"), ("b", "v2")] = "v1, v2" := by
  refine ⟨?_, rfl, by decide⟩
  intro m
  cases m with
  | nil => rfl
  | cons p rest => rfl

/-- C9: the dispatcher returns the empty string (and leaves the random
source untouched, so no generation is triggered and no error is raised) for
the condition type `"None"` and for every string outside the six recognised
case-sensitive names. -/
theorem dispatcher_unknown_noop {σ : Type} (M : RandModel σ) (cfgF cfgO : AxisConfig)
    (seed : Option Int) (rng : σ) :
    generate_condition_by_type M cfgF cfgO "None" seed rng = .ok ("", rng) ∧
    ∀ t : String,
      t ∉ (["None", "Character", "Facial", "Occupation", "Both", "All"] : List String) →
      generate_condition_by_type M cfgF cfgO t seed rng = .ok ("", rng) := by
  constructor
  · rfl
  · intro t ht
    simp only [List.mem_cons, List.not_mem_nil, or_false, not_or] at ht
    obtain ⟨h1, h2, h3, h4, h5, h6⟩ := ht
    unfold generate_condition_by_type
    rw [if_neg h1, if_neg h2, if_neg h3, if_neg h4, if_neg h5, if_neg h6]

theorem dispatcher_unknown_noop_witness :
    generate_condition_by_type concreteM charConfig charConfig "InvalidType"
      (some 1) 0 = .ok ("", 0) :=
  (dispatcher_unknown_noop concreteM charConfig charConfig (some 1) 0).2
    "InvalidType" (by decide)

/-- C4: in every successful generation (for any configuration whose mandatory
and optional axis sets are disjoint and whose optional list has no
duplicates, as the policy invariant requires), the number of optional axes
present in the result is at most `min(max_optional, |optional|)` — hence in
`[0, max_optional]` — and every optional key present is a member of
`policy.optional`; the count is the `random.randint(0, min(max_optional,
len(optional)))` draw capped by the removals, and the axes come from
`random.sample` over `policy.optional` without replacement. -/
theorem optional_axes_bound {σ : Type} (M : RandModel σ) (hM : LawfulRand M)
    (cfg : AxisConfig) (hdisj : ∀ a ∈ cfg.mandatory, a ∉ cfg.optional)
    (seed : Option Int) (rng : σ) (m : Dict) (r' : σ)
    (hgen : generate_condition M cfg seed rng = .ok (m, r')) :
    ((m.map Prod.fst).filter (fun a => decide (a ∈ cfg.optional))).length ≤
        min cfg.maxOptional cfg.optional.length ∧
    ∀ a ∈ (m.map Prod.fst).filter (fun a => decide (a ∈ cfg.optional)),
      a ∈ cfg.optional := by
  unfold generate_condition at hgen
  obtain ⟨m1, s1, num, s2, optAxes, s3, m2, h1, h2, h3, h4, hm⟩ := genFrom_ok_inv hgen
  have hnum_le : num ≤ min cfg.maxOptional cfg.optional.length := by
    unfold pyRandint at h2
    rw [if_neg (by omega)] at h2
    injection h2 with h2p
    have hle := hM.randint_le 0 (min cfg.maxOptional cfg.optional.length) s1
      (Nat.zero_le _)
    rw [h2p] at hle
    exact hle
  have hnum_len : num ≤ cfg.optional.length :=
    le_trans hnum_le (min_le_right _ _)
  have hopt_eq : optAxes = (M.sample cfg.optional num s2).1 := by
    unfold pySample at h3
    rw [if_neg (by omega)] at h3
    injection h3 with h3p
    exact (congrArg Prod.fst h3p).symm
  have hlen_opt : optAxes.length = num := by
    rw [hopt_eq]
    exact hM.sample_length _ _ _ hnum_len
  have hm2nd : (m2.map Prod.fst).Nodup :=
    axisLoop_nodup_keys h4 (axisLoop_nodup_keys h1 (by simp))
  have hmnd : (m.map Prod.fst).Nodup := by
    rw [hm]
    exact hm2nd.sublist ((exclusionPass_sublist m2 cfg.exclusions).map Prod.fst)
  have hsubset : ∀ a ∈ (m.map Prod.fst).filter (fun a => decide (a ∈ cfg.optional)),
      a ∈ optAxes := by
    intro a ha
    have hmem := List.mem_filter.mp ha
    have hopt : a ∈ cfg.optional := of_decide_eq_true hmem.2
    have hain : a ∈ m2.map Prod.fst := by
      refine ((exclusionPass_sublist m2 cfg.exclusions).map Prod.fst).subset ?_
      rw [← hm]
      exact hmem.1
    have hsome_m2 : (dictGet m2 a).isSome = true :=
      (dictGet_isSome_iff_mem m2 a).mpr hain
    rcases axisLoop_keys_or h4 a hsome_m2 with h5 | h5
    · rcases axisLoop_keys_or h1 a h5 with h6 | h6
      · simp [dictGet] at h6
      · exact absurd hopt (hdisj a h6)
    · exact h5
  constructor
  · have hfnd : ((m.map Prod.fst).filter (fun a => decide (a ∈ cfg.optional))).Nodup :=
      hmnd.filter _
    have hsp := List.subperm_of_subset hfnd hsubset
    calc ((m.map Prod.fst).filter (fun a => decide (a ∈ cfg.optional))).length
        ≤ optAxes.length := hsp.length_le
      _ = num := hlen_opt
      _ ≤ min cfg.maxOptional cfg.optional.length := hnum_le
  · intro a ha
    exact of_decide_eq_true (List.mem_filter.mp ha).2

theorem optional_axes_bound_witness :
    (([("physique", "wiry"), ("wealth", "modest"), ("health", "limping"),
        ("demeanor", "timid")].map Prod.fst).filter
      (fun a => decide (a ∈ charConfig.optional))).length ≤
      min charConfig.maxOptional charConfig.optional.length :=
  (optional_axes_bound concreteM concreteM_lawful charConfig (by decide)
    (some 0) 0
    [("physique", "wiry"), ("wealth", "modest"), ("health", "limping"),
     ("demeanor", "timid")] 6 (by decide)).1

/-- C5: in the mandatory phase of `generate_condition`, every axis name of
`policy.mandatory` that is defined in the axis registry is assigned a value,
so with the exclusion rules empty every registry-defined mandatory axis is
present in the returned mapping (first conjunct); a mandatory axis name that
is not in the registry is skipped — the selection loop behaves exactly as on
the list with the unknown names filtered out, warning aside, and in
particular the generation does not fail because of it (second conjunct). -/
theorem mandatory_coverage {σ : Type} (M : RandModel σ) (cfg : AxisConfig)
    (seed : Option Int) (rng : σ) (m : Dict) (r' : σ) :
    (cfg.exclusions = [] → generate_condition M cfg seed rng = .ok (m, r') →
      ∀ a ∈ cfg.mandatory, (dictGet cfg.axes a).isSome = true →
        (dictGet m a).isSome = true) ∧
    (∀ (axes : List String) (d : Dict) (s : σ),
      axisLoop M cfg axes d s =
        axisLoop M cfg (axes.filter (fun a => (dictGet cfg.axes a).isSome)) d s) := by
  constructor
  · intro hex hgen a ha hreg
    unfold generate_condition at hgen
    obtain ⟨m1, s1, num, s2, optAxes, s3, m2, h1, h2, h3, h4, hm⟩ := genFrom_ok_inv hgen
    have hm1 : (dictGet m1 a).isSome = true := axisLoop_covers h1 a ha hreg
    have hm2 : (dictGet m2 a).isSome = true := axisLoop_get_mono h4 a hm1
    rw [hm, hex]
    exact hm2
  · intro axes d s
    induction axes generalizing d s with
    | nil => rfl
    | cons ax rest ih =>
      by_cases hax : (dictGet cfg.axes ax).isSome = true
      · obtain ⟨vals, hvals⟩ := Option.isSome_iff_exists.mp hax
        rw [List.filter_cons_of_pos (by simpa using hax)]
        simp only [axisLoop]
        rw [hvals]
        dsimp only
        cases weighted_choice M vals (dictGet cfg.weights ax) s with
        | error e => rfl
        | ok p =>
          obtain ⟨v, s2⟩ := p
          dsimp only
          exact ih _ _
      · rw [List.filter_cons_of_neg (by simpa using hax)]
        have hnone : dictGet cfg.axes ax = none :=
          Option.not_isSome_iff_eq_none.mp (by simpa using hax)
        simp only [axisLoop]
        rw [hnone]
        dsimp only
        exact ih d s

theorem mandatory_coverage_witness :
    (dictGet [("physique", "wiry"), ("wealth", "modest"), ("health", "limping")]
      "physique").isSome = true :=
  (mandatory_coverage concreteM emptyExCfg (some 5) 0
    [("physique", "wiry"), ("wealth", "modest"), ("health", "limping")] 10).1
    rfl (by decide) "physique" (by decide) (by decide)

/-- C7: the dispatcher's `"Both"` mode generates the character family with
the given seed and the facial family with `seed + 1` (with no seed, both run
unseeded on the threaded ambient state) and joins the non-empty fragments
with `", "`; the `"All"` mode generates character with `seed`, facial with
`seed + 1` and occupation with `seed + 2` and joins all non-empty fragments
in that fixed family order with `", "`. -/
theorem dispatcher_multi_family {σ : Type} (M : RandModel σ) (cfgF cfgO : AxisConfig)
    (i : Int) (rng : σ) :
    (generate_condition_by_type M cfgF cfgO "Both" (some i) rng =
      match _generate_character_condition M (some i) rng with
      | .error e => .error e
      | .ok (c, r1) =>
        match _generate_facial_condition M cfgF (some (i + 1)) r1 with
        | .error e => .error e
        | .ok (f, r2) => .ok (joinNonEmpty [c, f], r2)) ∧
    (generate_condition_by_type M cfgF cfgO "All" (some i) rng =
      match _generate_character_condition M (some i) rng with
      | .error e => .error e
      | .ok (c, r1) =>
        match _generate_facial_condition M cfgF (some (i + 1)) r1 with
        | .error e => .error e
        | .ok (f, r2) =>
          match _generate_occupation_condition M cfgO (some (i + 2)) r2 with
          | .error e => .error e
          | .ok (o, r3) => .ok (joinNonEmpty [c, f, o], r3)) ∧
    (∀ rng0 : σ, generate_condition_by_type M cfgF cfgO "Both" none rng0 =
      match _generate_character_condition M none rng0 with
      | .error e => .error e
      | .ok (c, r1) =>
        match _generate_facial_condition M cfgF none r1 with
        | .error e => .error e
        | .ok (f, r2) => .ok (joinNonEmpty [c, f], r2)) := by
  refine ⟨?_, ?_, ?_⟩
  · rw [show generate_condition_by_type M cfgF cfgO "Both" (some i) rng =
      _generate_both_conditions M cfgF (some i) rng from rfl]
    unfold _generate_both_conditions
    cases _generate_character_condition M (some i) rng with
    | error e => rfl
    | ok p =>
      obtain ⟨c, r1⟩ := p
      dsimp only
      cases _generate_facial_condition M cfgF (some (i + 1)) r1 with
      | error e => rfl
      | ok q =>
        obtain ⟨f, r2⟩ := q
        dsimp only
        rw [pyJoin_two_ifs]
  · rw [show generate_condition_by_type M cfgF cfgO "All" (some i) rng =
      _generate_all_conditions M cfgF cfgO (some i) rng from rfl]
    unfold _generate_all_conditions
    cases _generate_character_condition M (some i) rng with
    | error e => rfl
    | ok p =>
      obtain ⟨c, r1⟩ := p
      dsimp only
      cases _generate_facial_condition M cfgF (some (i + 1)) r1 with
      | error e => rfl
      | ok q =>
        obtain ⟨f, r2⟩ := q
        dsimp only
        cases _generate_occupation_condition M cfgO (some (i + 2)) r2 with
        | error e => rfl
        | ok u =>
          obtain ⟨o, r3⟩ := u
          dsimp only
          rw [pyJoin_three_ifs]
  · intro rng0
    rw [show generate_condition_by_type M cfgF cfgO "Both" none rng0 =
      _generate_both_conditions M cfgF none rng0 from rfl]
    unfold _generate_both_conditions
    cases _generate_character_condition M none rng0 with
    | error e => rfl
    | ok p =>
      obtain ⟨c, r1⟩ := p
      dsimp only
      cases _generate_facial_condition M cfgF none r1 with
      | error e => rfl
      | ok q =>
        obtain ⟨f, r2⟩ := q
        dsimp only
        rw [pyJoin_two_ifs]

/-- C10: for every seed (or none) and every incoming random-source state,
`generate_condition` on the character-family constants succeeds and returns a
mapping in which each key is an axis defined in `CONDITION_AXES` and each
value is a member of that axis's defined value list — on every path,
including after exclusion removals. -/
theorem generated_condition_wellformed {σ : Type} (M : RandModel σ)
    (hM : LawfulRand M) (seed : Option Int) (rng : σ) :
    ∃ m r', generate_condition M charConfig seed rng = .ok (m, r') ∧
      ∀ p ∈ m, ∃ vs, dictGet CONDITION_AXES p.1 = some vs ∧ p.2 ∈ vs := by
  have hmand : ∀ a ∈ charConfig.mandatory, axisOk charConfig a = true := by decide
  have hopt : ∀ a ∈ charConfig.optional, axisOk charConfig a = true := by decide
  obtain ⟨m2, s4, hg⟩ := genFrom_ok hM charConfig
    (match seed with | some i => M.seedFn i | none => rng) hmand hopt
  have hg' : generate_condition M charConfig seed rng =
      .ok (exclusionPass m2 charConfig.exclusions, s4) := hg
  refine ⟨exclusionPass m2 charConfig.exclusions, s4, hg', ?_⟩
  obtain ⟨m1, s1, num, s2, optAxes, s3, m2x, h1, h2, h3, h4, hm⟩ := genFrom_ok_inv hg
  intro p hp
  rw [hm] at hp
  have hp2 : p ∈ m2x := (exclusionPass_sublist m2x charConfig.exclusions).subset hp
  have hwf1 : ∀ q ∈ m1, ∃ vs, dictGet charConfig.axes q.1 = some vs ∧ q.2 ∈ vs :=
    axisLoop_wf hM h1 (by intro q hq; simp at hq)
  have hwf2 := axisLoop_wf hM h4 hwf1
  exact hwf2 p hp2

theorem generated_condition_wellformed_witness :
    ∃ m r', generate_condition concreteM charConfig (some 0) 0 = .ok (m, r') ∧
      ∀ p ∈ m, ∃ vs, dictGet CONDITION_AXES p.1 = some vs ∧ p.2 ∈ vs :=
  generated_condition_wellformed concreteM concreteM_lawful (some 0) 0
